import Mathlib

/-!
Verification of the selection policies and generation-numbering rule of the
Telephone application (grunt/models.py).

The Django models `Game`, `Chain` and `Message` are embedded as Lean
structures; the database is a `DB` record of lists kept in insertion order
(auto-increment primary keys, so insertion order is ascending-pk order when
the well-formedness predicate below holds).  ORM querysets are embedded as
list filters over `DB`; `order_by('?')` (random shuffling) is embedded as an
explicit `shuffle` parameter that theorems constrain to be a permutation.
Methods that Django would run against the database take the `DB` and return
it, so that read-only methods are visibly read-only and `save` is an append.
-/

/-- Model of `grunt.models.Game`: top-level control over calls.  Field defaults follow
the model definition (`chain_order` defaults to `'SEQ'`, etc.). -/
structure Game where
  pk : Nat
  name : String := ""
  type : String := "PUB"
  completion_code : String := ""
  chain_order : String := "SEQ"
  status : String := "ACTIV"
deriving Repr, DecidableEq

/-- Model of `grunt.models.Chain`: a collection of messages, belonging to a game.
`selection_method` defaults to `'YNG'` (youngest). -/
structure Chain where
  pk : Nat
  game : Nat
  selection_method : String := "YNG"
deriving Repr, DecidableEq

/-- Model of `grunt.models.Message`: one audio recording.  `parent` is a nullable
foreign key to another message (stored by pk), `generation` defaults to `0`,
and `audio` is the stored file name, `""` when no file has been uploaded
(a blank `FileField` is falsy in Python). -/
structure Message where
  pk : Nat := 0
  chain : Nat
  name : String := ""
  parent : Option Nat := none
  generation : Int := 0
  audio : String := ""
deriving Repr, DecidableEq

/-- The relational store: rows in insertion order. -/
structure DB where
  games : List Game := []
  chains : List Chain := []
  messages : List Message := []
deriving Repr, DecidableEq

/-- Foreign-key dereference: find the message with the given pk. -/
def getMessage (db : DB) (pk : Nat) : Option Message :=
  db.messages.find? (fun m => m.pk == pk)

/-- Queryset `self.chain_set.all()`: the chains of a game, in database order. -/
def Game.chain_set (g : Game) (db : DB) : List Chain :=
  db.chains.filter (fun c => c.game == g.pk)

/-- Method `grunt.models.Game.pick_next_chain`: determine which chain should be
played next.  Raises `Chain.DoesNotExist` (embedded as `Except.error`) when
there are no chains in the game or no chains outside `receipts`; under the
`'RND'` chain order the remaining chains are shuffled before taking the
first.  The method performs no writes, so it returns the database unchanged. -/
def Game.pick_next_chain (g : Game) (receipts : List Nat)
    (shuffle : List Chain → List Chain) (db : DB) :
    Except String Chain × DB :=
  let chains := g.chain_set db
  if chains.length = 0 then
    (Except.error "No chains in game", db)
  else
    let remaining_chains := chains.filter (fun c => c.pk ∉ receipts)
    if remaining_chains = [] then
      (Except.error "All receipts present", db)
    else
      match (if g.chain_order = "RND" then shuffle remaining_chains
             else remaining_chains) with
      | [] => (Except.error "IndexError", db)
      | c :: _ => (Except.ok c, db)

/-- Queryset `self.message_set.all()`: the messages of a chain, in database order. -/
def Chain.message_set (c : Chain) (db : DB) : List Message :=
  db.messages.filter (fun m => m.chain == c.pk)

/-- Comparator `lambda msg: msg.generation` used as the sort key when picking
the next message: compare messages by generation. -/
def genLE (a b : Message) : Bool :=
  decide (a.generation ≤ b.generation)

/-- Method `grunt.models.Chain.pick_next_message`: determine which message should be
viewed next.  Filters the chain's messages to those with blank audio, raises
`Message.DoesNotExist` when none remain, shuffles under `'RND'` and otherwise
sorts (stably) by generation, returning the first.  No writes. -/
def Chain.pick_next_message (c : Chain)
    (shuffle : List Message → List Message) (db : DB) :
    Except String Message × DB :=
  let messages := (c.message_set db).filter (fun m => m.audio = "")
  if messages.length = 0 then
    (Except.error "No available messages", db)
  else
    match (if c.selection_method = "RND" then shuffle messages
           else messages.mergeSort genLE) with
    | [] => (Except.error "IndexError", db)
    | m :: _ => (Except.ok m, db)

/-- Method `grunt.models.Message.full_clean`: if the message has a parent, its
generation is set to the parent's generation plus one before validation. -/
def Message.full_clean (m : Message) (db : DB) : Message :=
  match m.parent with
  | some ppk =>
      match getMessage db ppk with
      | some p => { m with generation := p.generation + 1 }
      | none => m
  | none => m

/-- The next auto-increment primary key: one more than the largest in use. -/
def freshPk (db : DB) : Nat :=
  (db.messages.map Message.pk).foldr max 0 + 1

/-- Operation `Model.save()` on a new message: assign the auto-increment pk and append
the row. -/
def DB.saveMessage (db : DB) (m : Message) : Message × DB :=
  let saved := { m with pk := freshPk db }
  (saved, { db with messages := db.messages ++ [saved] })

/-- Method `grunt.models.Message.replicate`: build a child message in the same chain
with this message as parent, run `full_clean` (which numbers its generation),
save it and return it. -/
def Message.replicate (m : Message) (db : DB) : Message × DB :=
  let child : Message := { chain := m.chain, parent := some m.pk }
  let child := child.full_clean db
  db.saveMessage child

/-- Predicate distinguishing a raised `DoesNotExist` from a normal return. -/
def raised {α : Type} : Except String α → Bool
  | Except.error _ => true
  | Except.ok _ => false

/-- Values appearing in the JSON-like dictionaries built by `to_dict`. -/
inductive JValue where
  | null
  | num (n : Int)
  | str (s : String)
deriving Repr, DecidableEq

/-- Project setting `MEDIA_URL`, prepended by the file storage to stored file
names to form `FileField.url`. -/
def media_url : String := "/media/"

/-- Django `reverse(route, kwargs = {pk: pk})`: the URL routed to `route`
for the object with primary key `pk`. -/
def reverse_url (route : String) (pk : Nat) : String :=
  "/" ++ toString pk ++ "/" ++ route

/-- Method `grunt.models.Message.to_dict`: serialize a message.  The keys are
listed in insertion order; `close_url` and `upload_url` are added only when
the message has no audio recorded. -/
def Message.to_dict (m : Message) : List (String × JValue) :=
  let message_dict : List (String × JValue) := [
    ("pk", JValue.num (Int.ofNat m.pk)),
    ("generation", JValue.num m.generation),
    ("audio", if m.audio = "" then JValue.null
              else JValue.str (media_url ++ m.audio)),
    ("parent", match m.parent with
      | some ppk => JValue.num (Int.ofNat ppk)
      | none => JValue.null),
    ("sprout_url", JValue.str (reverse_url "sprout" m.pk))]
  if m.audio = "" then
    message_dict ++ [
      ("close_url", JValue.str (reverse_url "close" m.pk)),
      ("upload_url", JValue.str (reverse_url "upload" m.pk))]
  else
    message_dict

/-- Check that one message's parent link, if any, resolves inside `pool` to a
message of the same chain. -/
def parentOkIn (pool : List Message) (m : Message) : Bool :=
  match m.parent with
  | none => true
  | some ppk =>
      match pool.find? (fun q => q.pk == ppk) with
      | some p => p.chain == m.chain
      | none => false

/-- Invariant: every message's parent, when present, is a message of the same
chain. -/
def parentInSameChain (db : DB) : Bool :=
  db.messages.all (parentOkIn db.messages)

/-- Linearity condition of the spec: no two distinct messages share the same
(present) parent. -/
def noSharedParent (db : DB) : Bool :=
  db.messages.all (fun m1 => db.messages.all (fun m2 =>
    m1.pk == m2.pk || !(m1.parent.isSome && m1.parent == m2.parent)))

/-- Concrete sample database used to instantiate the theorems: two games (one
sequential, one random), three chains, one chain holding a recorded seed
message and two unrecorded messages. -/
def sG1 : Game := { pk := 1 }

/-- Concrete random-order game. -/
def sG2 : Game := { pk := 2, chain_order := "RND" }

/-- Concrete chain 1 of game 1. -/
def sC1 : Chain := { pk := 1, game := 1 }

/-- Concrete chain 2 of game 1. -/
def sC2 : Chain := { pk := 2, game := 1 }

/-- Concrete chain 3 of game 2. -/
def sC3 : Chain := { pk := 3, game := 2 }

/-- Concrete recorded message at generation 0. -/
def sM1 : Message := { pk := 1, chain := 1, audio := "m1.wav" }

/-- Concrete unrecorded message at generation 1. -/
def sM2 : Message := { pk := 2, chain := 1, parent := some 1, generation := 1 }

/-- Concrete unrecorded message at generation 2. -/
def sM3 : Message := { pk := 3, chain := 1, parent := some 2, generation := 2 }

/-- The sample database. -/
def sDB : DB :=
  { games := [sG1, sG2], chains := [sC1, sC2, sC3], messages := [sM1, sM2, sM3] }

/-- Seed message of the two-replication scenario. -/
def exSeedMsg : Message := { pk := 1, chain := 1, audio := "seed.wav" }

/-- Initial database of the two-replication scenario: one game, one chain,
one recorded seed message. -/
def exDB0 : DB :=
  { games := [{ pk := 1 }], chains := [{ pk := 1, game := 1 }],
    messages := [exSeedMsg] }

/-- Database after replicating the seed message once. -/
def exDB1 : DB := (exSeedMsg.replicate exDB0).2

/-- Database after replicating the same seed message a second time. -/
def exDB2 : DB := (exSeedMsg.replicate exDB1).2

/-! ### Helper lemmas -/

theorem le_foldr_max (l : List Nat) (x : Nat) (hx : x ∈ l) :
    x ≤ l.foldr max 0 := by
  induction l with
  | nil => cases hx
  | cons a t ih =>
    rw [List.foldr_cons]
    rcases List.mem_cons.mp hx with rfl | h
    · exact le_max_left _ _
    · exact le_trans (ih h) (le_max_right _ _)

theorem pk_lt_freshPk (db : DB) (m' : Message) (hm' : m' ∈ db.messages) :
    m'.pk < freshPk db := by
  have h1 : m'.pk ∈ db.messages.map Message.pk := List.mem_map_of_mem _ hm'
  have h2 := le_foldr_max _ _ h1
  unfold freshPk
  omega

/-! ### Claim theorems -/

/-- C1: validation (`full_clean`) sets a message's generation to its parent's
generation plus one whenever a parent is present; a message with no parent
keeps its generation, which defaults to 0 for a freshly constructed message. -/
theorem full_clean_generation_rule (m : Message) (db : DB) :
    (∀ ppk p, m.parent = some ppk → getMessage db ppk = some p →
        (m.full_clean db).generation = p.generation + 1)
    ∧ (m.parent = none → (m.full_clean db).generation = m.generation)
    ∧ (({ chain := m.chain } : Message).full_clean db).generation = 0 := by
  refine ⟨?_, ?_, ?_⟩
  · intro ppk p hpar hget
    simp [Message.full_clean, hpar, hget]
  · intro hnone
    simp [Message.full_clean, hnone]
  · rfl

/-- Witness for C1 at the sample database: message 3 has parent 2 of
generation 1, so cleaning gives generation 2; the seed message has no parent
and keeps its generation. -/
theorem full_clean_generation_rule_witness :
    (sM3.full_clean sDB).generation = sM2.generation + 1 ∧
    (sM1.full_clean sDB).generation = sM1.generation :=
  ⟨(full_clean_generation_rule sM3 sDB).1 2 sM2 rfl rfl,
   (full_clean_generation_rule sM1 sDB).2.1 rfl⟩

/-- C5: for a saved message `m`, `replicate` returns a newly created message
(its pk differs from every stored message's) in the same chain as `m`, with
`m` as parent, at generation `m.generation + 1`, and the new message is
stored in the returned database. -/
theorem replicate_creates_child (m : Message) (db : DB)
    (hm : getMessage db m.pk = some m) :
    (m.replicate db).1.chain = m.chain ∧
    (m.replicate db).1.parent = some m.pk ∧
    (m.replicate db).1.generation = m.generation + 1 ∧
    (m.replicate db).1 ∈ (m.replicate db).2.messages ∧
    (∀ m' ∈ db.messages, m'.pk ≠ (m.replicate db).1.pk) := by
  refine ⟨?_, ?_, ?_, ?_, ?_⟩ <;>
    simp [Message.replicate, DB.saveMessage, Message.full_clean, hm]
  intro m' hm'
  exact Nat.ne_of_lt (pk_lt_freshPk db m' hm')

/-- Witness for C5: replicating the recorded seed message of the sample
database yields a child in chain 1, with parent 1, at generation 1. -/
theorem replicate_creates_child_witness :
    (sM1.replicate sDB).1.chain = sM1.chain ∧
    (sM1.replicate sDB).1.parent = some sM1.pk ∧
    (sM1.replicate sDB).1.generation = sM1.generation + 1 :=
  ⟨(replicate_creates_child sM1 sDB rfl).1,
   (replicate_creates_child sM1 sDB rfl).2.1,
   (replicate_creates_child sM1 sDB rfl).2.2.1⟩

/-- C7: the sequential policies are deterministic: with chain order `'SEQ'`
`pick_next_chain` gives the same answer whatever the random source, and with
selection method `'YNG'` so does `pick_next_message`. -/
theorem sequential_policies_deterministic (g : Game) (c : Chain)
    (receipts : List Nat) (s1 s2 : List Chain → List Chain)
    (t1 t2 : List Message → List Message) (db : DB)
    (hg : g.chain_order = "SEQ") (hc : c.selection_method = "YNG") :
    g.pick_next_chain receipts s1 db = g.pick_next_chain receipts s2 db ∧
    c.pick_next_message t1 db = c.pick_next_message t2 db := by
  constructor
  · simp [Game.pick_next_chain, hg]
  · simp [Chain.pick_next_message, hc]

/-- Witness for C7: on the sample database the sequential game and the
youngest-first chain give the same answer under the identity shuffle and the
reversing shuffle. -/
theorem sequential_policies_deterministic_witness :
    sG1.pick_next_chain [1] id sDB = sG1.pick_next_chain [1] List.reverse sDB ∧
    sC1.pick_next_message id sDB = sC1.pick_next_message List.reverse sDB :=
  sequential_policies_deterministic sG1 sC1 [1] id List.reverse id
    List.reverse sDB rfl rfl

theorem reorder_head_mem {α : Type} (b : Prop) [Decidable b]
    (f g : List α → List α) (hf : ∀ l, (f l).Perm l) (hg : ∀ l, (g l).Perm l)
    (l : List α) (c : α) (t : List α)
    (h : (if b then f l else g l) = c :: t) : c ∈ l := by
  by_cases hb : b
  · rw [if_pos hb] at h
    exact (hf l).mem_iff.mp (h ▸ List.mem_cons_self _ _)
  · rw [if_neg hb] at h
    exact (hg l).mem_iff.mp (h ▸ List.mem_cons_self _ _)

theorem reorder_ne_nil {α : Type} (b : Prop) [Decidable b]
    (f g : List α → List α) (hf : ∀ l, (f l).Perm l) (hg : ∀ l, (g l).Perm l)
    (l : List α) (hl : l ≠ []) :
    (if b then f l else g l) ≠ [] := by
  by_cases hb : b
  · rw [if_pos hb]
    intro h
    exact hl ((h ▸ hf l).symm.eq_nil)
  · rw [if_neg hb]
    intro h
    exact hl ((h ▸ hg l).symm.eq_nil)

theorem raised_eq_false {α : Type} (r : Except String α) (h : raised r = false) :
    ∃ c, r = Except.ok c := by
  cases r with
  | error e => cases h
  | ok c => exact ⟨c, rfl⟩

theorem pick_next_chain_spec (g : Game) (receipts : List Nat)
    (shuffle : List Chain → List Chain) (db : DB)
    (hs : ∀ l, (shuffle l).Perm l) :
    ((g.pick_next_chain receipts shuffle db).2 = db) ∧
    (∀ c, (g.pick_next_chain receipts shuffle db).1 = Except.ok c →
       c ∈ (g.chain_set db).filter (fun x => x.pk ∉ receipts)) ∧
    (raised (g.pick_next_chain receipts shuffle db).1 = true ↔
       (g.chain_set db).filter (fun x => x.pk ∉ receipts) = []) := by
  unfold Game.pick_next_chain
  by_cases h0 : (g.chain_set db).length = 0
  · rw [if_pos h0]
    refine ⟨rfl, ?_, ?_⟩
    · intro c hc
      cases hc
    · have : g.chain_set db = [] := List.length_eq_zero.mp h0
      simp [raised, this]
  · rw [if_neg h0]
    by_cases hrem : (g.chain_set db).filter (fun x => x.pk ∉ receipts) = []
    · rw [if_pos hrem]
      refine ⟨rfl, ?_, ?_⟩
      · intro c hc
        cases hc
      · exact iff_of_true rfl hrem
    · rw [if_neg hrem]
      have hne := reorder_ne_nil (g.chain_order = "RND") shuffle (fun l => l)
        hs (fun l => List.Perm.refl l) _ hrem
      cases hmatch : (if g.chain_order = "RND" then
          shuffle ((g.chain_set db).filter (fun x => x.pk ∉ receipts))
        else (g.chain_set db).filter (fun x => x.pk ∉ receipts)) with
      | nil => exact absurd hmatch hne
      | cons c' t =>
        have hmem := reorder_head_mem _ shuffle (fun l => l) hs
          (fun l => List.Perm.refl l) _ c' t hmatch
        refine ⟨rfl, ?_, ?_⟩
        · intro c hc
          obtain rfl : c' = c := by simpa using hc
          exact hmem
        · exact iff_of_false Bool.false_ne_true hrem

/-- C2: whenever a game has a chain whose pk is not in `receipts`,
`pick_next_chain` returns a chain of that game whose pk is not in
`receipts`, under the sequential as well as the random order policy
(the random source being an arbitrary permutation). -/
theorem pick_next_chain_fresh (g : Game) (receipts : List Nat)
    (shuffle : List Chain → List Chain) (db : DB)
    (hs : ∀ l, (shuffle l).Perm l)
    (hord : g.chain_order = "SEQ" ∨ g.chain_order = "RND")
    (hex : ∃ c ∈ g.chain_set db, c.pk ∉ receipts) :
    ∃ c, (g.pick_next_chain receipts shuffle db).1 = Except.ok c ∧
      c ∈ g.chain_set db ∧ c.pk ∉ receipts := by
  have hspec := pick_next_chain_spec g receipts shuffle db hs
  obtain ⟨c0, hc0, hc0p⟩ := hex
  have hfil : (g.chain_set db).filter (fun x => x.pk ∉ receipts) ≠ [] :=
    List.ne_nil_of_mem (List.mem_filter.mpr ⟨hc0, by simpa using hc0p⟩)
  have hraised : raised (g.pick_next_chain receipts shuffle db).1 = false := by
    cases hr : raised (g.pick_next_chain receipts shuffle db).1 with
    | false => rfl
    | true => exact absurd (hspec.2.2.mp hr) hfil
  obtain ⟨c, hc⟩ := raised_eq_false _ hraised
  have hcf := hspec.2.1 c hc
  exact ⟨c, hc, (List.mem_filter.mp hcf).1, by simpa using (List.mem_filter.mp hcf).2⟩

/-- Witness for C2: in the sample database, game 1 with receipts `[1]` still
has chain 2 available, and `pick_next_chain` serves it. -/
theorem pick_next_chain_fresh_witness :
    ∃ c, (sG1.pick_next_chain [1] id sDB).1 = Except.ok c ∧
      c ∈ sG1.chain_set sDB ∧ c.pk ∉ [1] :=
  pick_next_chain_fresh sG1 [1] id sDB (fun l => List.Perm.refl l)
    (Or.inl rfl) ⟨sC2, by decide, by decide⟩

/-- C8: `pick_next_chain` raises `Chain.DoesNotExist` exactly when every
chain of the game has its pk in `receipts` (vacuously so when the game has
no chains), and the database is returned unchanged in both outcomes. -/
theorem pick_next_chain_raises_iff (g : Game) (receipts : List Nat)
    (shuffle : List Chain → List Chain) (db : DB)
    (hs : ∀ l, (shuffle l).Perm l) :
    (raised (g.pick_next_chain receipts shuffle db).1 = true ↔
      ∀ c ∈ g.chain_set db, c.pk ∈ receipts) ∧
    (g.pick_next_chain receipts shuffle db).2 = db := by
  have hspec := pick_next_chain_spec g receipts shuffle db hs
  refine ⟨?_, hspec.1⟩
  rw [hspec.2.2]
  constructor
  · intro h c hc
    by_contra hcp
    have hm : c ∈ (g.chain_set db).filter (fun x => x.pk ∉ receipts) :=
      List.mem_filter.mpr ⟨hc, by simpa using hcp⟩
    rw [h] at hm
    cases hm
  · intro h
    rw [List.filter_eq_nil_iff]
    intro c hc
    simpa using h c hc

/-- Witness for C8: with all chain pks of game 1 in the receipts the call
raises, and the database comes back unchanged. -/
theorem pick_next_chain_raises_iff_witness :
    (raised (sG1.pick_next_chain [1, 2] id sDB).1 = true ↔
      ∀ c ∈ sG1.chain_set sDB, c.pk ∈ [1, 2]) ∧
    (sG1.pick_next_chain [1, 2] id sDB).2 = sDB :=
  pick_next_chain_raises_iff sG1 [1, 2] id sDB (fun l => List.Perm.refl l)

theorem pick_next_chain_seq_head (g : Game) (receipts : List Nat)
    (shuffle : List Chain → List Chain) (db : DB)
    (hseq : g.chain_order = "SEQ") (c : Chain) (t : List Chain)
    (hrem : (g.chain_set db).filter (fun x => x.pk ∉ receipts) = c :: t) :
    (g.pick_next_chain receipts shuffle db).1 = Except.ok c := by
  unfold Game.pick_next_chain
  have hne : (g.chain_set db).filter (fun x => x.pk ∉ receipts) ≠ [] := by
    rw [hrem]
    exact List.cons_ne_nil _ _
  have h0 : ¬(g.chain_set db).length = 0 := by
    intro h
    rw [List.length_eq_zero.mp h] at hrem
    cases hrem
  rw [if_neg h0, if_neg hne]
  have hnr : ¬(g.chain_order = "RND") := by
    rw [hseq]
    decide
  rw [if_neg hnr, hrem]

/-- C4: under the default `'SEQ'` chain order, with the chain table in
ascending-pk (insertion) order, `pick_next_chain` returns the remaining
chain with the smallest primary key. -/
theorem pick_next_chain_seq_min_pk (g : Game) (receipts : List Nat)
    (shuffle : List Chain → List Chain) (db : DB)
    (hseq : g.chain_order = "SEQ")
    (hasc : db.chains.Pairwise (fun a b => a.pk < b.pk))
    (hex : ∃ c ∈ g.chain_set db, c.pk ∉ receipts) :
    ∃ c, (g.pick_next_chain receipts shuffle db).1 = Except.ok c ∧
      c ∈ g.chain_set db ∧ c.pk ∉ receipts ∧
      ∀ c' ∈ g.chain_set db, c'.pk ∉ receipts → c.pk ≤ c'.pk := by
  obtain ⟨c0, hc0, hc0p⟩ := hex
  have hc0f : c0 ∈ (g.chain_set db).filter (fun x => x.pk ∉ receipts) :=
    List.mem_filter.mpr ⟨hc0, by simpa using hc0p⟩
  cases hrem : (g.chain_set db).filter (fun x => x.pk ∉ receipts) with
  | nil =>
    rw [hrem] at hc0f
    cases hc0f
  | cons c t =>
    have hcf : c ∈ (g.chain_set db).filter (fun x => x.pk ∉ receipts) := by
      rw [hrem]
      exact List.mem_cons_self _ _
    refine ⟨c, pick_next_chain_seq_head g receipts shuffle db hseq c t hrem,
      (List.mem_filter.mp hcf).1, by simpa using (List.mem_filter.mp hcf).2, ?_⟩
    intro c' hc' hc'p
    have hmemf : c' ∈ (g.chain_set db).filter (fun x => x.pk ∉ receipts) :=
      List.mem_filter.mpr ⟨hc', by simpa using hc'p⟩
    rw [hrem] at hmemf
    rcases List.mem_cons.mp hmemf with rfl | hmem
    · exact le_refl _
    · have hpw : ((g.chain_set db).filter
          (fun x => x.pk ∉ receipts)).Pairwise (fun a b => a.pk < b.pk) :=
        List.Pairwise.sublist
          ((List.filter_sublist _).trans (List.filter_sublist _)) hasc
      rw [hrem] at hpw
      have := (List.pairwise_cons.mp hpw).1 c' hmem
      omega

/-- Witness for C4: in the sample database (ascending pks), for game 1 with
receipts `[1]` the call returns the remaining chain of smallest pk. -/
theorem pick_next_chain_seq_min_pk_witness :
    ∃ c, (sG1.pick_next_chain [1] id sDB).1 = Except.ok c ∧
      c ∈ sG1.chain_set sDB ∧ c.pk ∉ [1] ∧
      ∀ c' ∈ sG1.chain_set sDB, c'.pk ∉ [1] → c.pk ≤ c'.pk :=
  pick_next_chain_seq_min_pk sG1 [1] id sDB rfl (by decide)
    ⟨sC2, by decide, by decide⟩

theorem pick_next_message_spec (c : Chain)
    (shuffle : List Message → List Message) (db : DB)
    (hs : ∀ l, (shuffle l).Perm l) :
    ((c.pick_next_message shuffle db).2 = db) ∧
    (∀ m, (c.pick_next_message shuffle db).1 = Except.ok m →
       m ∈ (c.message_set db).filter (fun x => x.audio = "")) ∧
    (raised (c.pick_next_message shuffle db).1 = true ↔
       (c.message_set db).filter (fun x => x.audio = "") = []) := by
  unfold Chain.pick_next_message
  by_cases h0 : ((c.message_set db).filter (fun x => x.audio = "")).length = 0
  · rw [if_pos h0]
    refine ⟨rfl, ?_, ?_⟩
    · intro m hm
      cases hm
    · exact iff_of_true rfl (List.length_eq_zero.mp h0)
  · rw [if_neg h0]
    have hrem : (c.message_set db).filter (fun x => x.audio = "") ≠ [] := by
      intro h
      exact h0 (by rw [h]; rfl)
    have hne := reorder_ne_nil (c.selection_method = "RND") shuffle
      (fun l => l.mergeSort genLE)
      hs (fun l => List.mergeSort_perm l _) _ hrem
    cases hmatch : (if c.selection_method = "RND" then
        shuffle ((c.message_set db).filter (fun x => x.audio = ""))
      else ((c.message_set db).filter (fun x => x.audio = "")).mergeSort
        genLE) with
    | nil => exact absurd hmatch hne
    | cons m' t =>
      have hmem := reorder_head_mem _ shuffle
        (fun l => l.mergeSort genLE)
        hs (fun l => List.mergeSort_perm l _) _ m' t hmatch
      refine ⟨rfl, ?_, ?_⟩
      · intro m hm
        obtain rfl : m' = m := by simpa using hm
        exact hmem
      · exact iff_of_false Bool.false_ne_true hrem

/-- C9: `pick_next_message` only ever returns a message of the chain whose
audio is empty; it raises `Message.DoesNotExist` exactly when no message of
the chain has empty audio; and the database is returned unchanged in both
outcomes. -/
theorem pick_next_message_unrecorded_iff (c : Chain)
    (shuffle : List Message → List Message) (db : DB)
    (hs : ∀ l, (shuffle l).Perm l) :
    (∀ m, (c.pick_next_message shuffle db).1 = Except.ok m →
        m ∈ c.message_set db ∧ m.audio = "") ∧
    (raised (c.pick_next_message shuffle db).1 = true ↔
        ∀ m ∈ c.message_set db, m.audio ≠ "") ∧
    (c.pick_next_message shuffle db).2 = db := by
  have hspec := pick_next_message_spec c shuffle db hs
  refine ⟨?_, ?_, hspec.1⟩
  · intro m hm
    have hmf := hspec.2.1 m hm
    exact ⟨(List.mem_filter.mp hmf).1, by simpa using (List.mem_filter.mp hmf).2⟩
  · rw [hspec.2.2, List.filter_eq_nil_iff]
    constructor
    · intro h m hm
      simpa using h m hm
    · intro h m hm
      simpa using h m hm

/-- Witness for C9: chain 1 of the sample database holds one recorded and two
unrecorded messages; the instantiated claim holds there. -/
theorem pick_next_message_unrecorded_iff_witness :
    (∀ m, (sC1.pick_next_message id sDB).1 = Except.ok m →
        m ∈ sC1.message_set sDB ∧ m.audio = "") ∧
    (raised (sC1.pick_next_message id sDB).1 = true ↔
        ∀ m ∈ sC1.message_set sDB, m.audio ≠ "") ∧
    (sC1.pick_next_message id sDB).2 = sDB :=
  pick_next_message_unrecorded_iff sC1 id sDB (fun l => List.Perm.refl l)

theorem genLE_trans (a b c : Message) (hab : genLE a b = true)
    (hbc : genLE b c = true) : genLE a c = true := by
  simp only [genLE, decide_eq_true_eq] at *
  omega

theorem genLE_total (a b : Message) : genLE a b || genLE b a := by
  simp only [genLE, Bool.or_eq_true, decide_eq_true_eq]
  exact Int.le_total a.generation b.generation

theorem pick_next_message_yng_head (c : Chain)
    (shuffle : List Message → List Message) (db : DB)
    (hyng : c.selection_method = "YNG") (m : Message) (t : List Message)
    (hsor : ((c.message_set db).filter (fun x => x.audio = "")).mergeSort
        genLE = m :: t) :
    (c.pick_next_message shuffle db).1 = Except.ok m := by
  unfold Chain.pick_next_message
  have hne : (c.message_set db).filter (fun x => x.audio = "") ≠ [] := by
    intro h
    rw [h] at hsor
    simp at hsor
  have h0 : ¬((c.message_set db).filter (fun x => x.audio = "")).length = 0 := by
    intro h
    exact hne (List.length_eq_zero.mp h)
  rw [if_neg h0]
  have hnr : ¬(c.selection_method = "RND") := by
    rw [hyng]
    decide
  rw [if_neg hnr, hsor]

/-- C3: under the default `'YNG'` (youngest) selection method,
`pick_next_message` returns an available (audio-less) message of minimal
generation: the candidate with the fewest completed predecessors, i.e.
shortest-first. -/
theorem pick_next_message_yng_min (c : Chain)
    (shuffle : List Message → List Message) (db : DB)
    (hyng : c.selection_method = "YNG")
    (hex : ∃ m ∈ c.message_set db, m.audio = "") :
    ∃ m, (c.pick_next_message shuffle db).1 = Except.ok m ∧
      m ∈ c.message_set db ∧ m.audio = "" ∧
      ∀ m' ∈ c.message_set db, m'.audio = "" →
        m.generation ≤ m'.generation := by
  obtain ⟨m0, hm0, hm0a⟩ := hex
  have hm0f : m0 ∈ (c.message_set db).filter (fun x => x.audio = "") :=
    List.mem_filter.mpr ⟨hm0, by simpa using hm0a⟩
  have hnef : (c.message_set db).filter (fun x => x.audio = "") ≠ [] :=
    List.ne_nil_of_mem hm0f
  cases hsor : ((c.message_set db).filter (fun x => x.audio = "")).mergeSort
      genLE with
  | nil =>
    exact absurd ((hsor ▸ List.mergeSort_perm _ _).symm.eq_nil) hnef
  | cons m t =>
    have hmf : m ∈ (c.message_set db).filter (fun x => x.audio = "") :=
      (List.mergeSort_perm _ _).mem_iff.mp (hsor ▸ List.mem_cons_self _ _)
    refine ⟨m, pick_next_message_yng_head c shuffle db hyng m t hsor,
      (List.mem_filter.mp hmf).1, by simpa using (List.mem_filter.mp hmf).2, ?_⟩
    intro m' hm' hm'a
    have hm'f : m' ∈ (c.message_set db).filter (fun x => x.audio = "") :=
      List.mem_filter.mpr ⟨hm', by simpa using hm'a⟩
    have hm's : m' ∈ ((c.message_set db).filter
        (fun x => x.audio = "")).mergeSort genLE :=
      (List.mergeSort_perm _ _).mem_iff.mpr hm'f
    rw [hsor] at hm's
    rcases List.mem_cons.mp hm's with rfl | hmem
    · exact le_refl _
    · have hpw := List.sorted_mergeSort genLE_trans genLE_total
        ((c.message_set db).filter (fun x => x.audio = ""))
      rw [hsor] at hpw
      have := (List.pairwise_cons.mp hpw).1 m' hmem
      simpa [genLE] using this

/-- Witness for C3: in the sample database chain 1 has unrecorded messages at
generations 1 and 2, and the one of minimal generation is served. -/
theorem pick_next_message_yng_min_witness :
    ∃ m, (sC1.pick_next_message id sDB).1 = Except.ok m ∧
      m ∈ sC1.message_set sDB ∧ m.audio = "" ∧
      ∀ m' ∈ sC1.message_set sDB, m'.audio = "" →
        m.generation ≤ m'.generation :=
  pick_next_message_yng_min sC1 id sDB rfl ⟨sM2, by decide, by decide⟩

/-- C10: the serialization `to_dict` contains `close_url` and `upload_url`
exactly when the message has no audio; it always contains `pk`,
`generation`, `audio`, `parent` and `sprout_url`; the `audio` value is the
file URL when audio is present and null otherwise, and `parent` is the
parent's id or null. -/
theorem to_dict_keys (m : Message) :
    ((m.to_dict.lookup "close_url").isSome ↔ m.audio = "") ∧
    ((m.to_dict.lookup "upload_url").isSome ↔ m.audio = "") ∧
    m.to_dict.lookup "pk" = some (JValue.num (Int.ofNat m.pk)) ∧
    m.to_dict.lookup "generation" = some (JValue.num m.generation) ∧
    m.to_dict.lookup "audio" = some (if m.audio = "" then JValue.null
        else JValue.str (media_url ++ m.audio)) ∧
    m.to_dict.lookup "parent" = some (match m.parent with
        | some ppk => JValue.num (Int.ofNat ppk)
        | none => JValue.null) ∧
    (m.to_dict.lookup "sprout_url").isSome = true := by
  by_cases ha : m.audio = "" <;>
    simp [Message.to_dict, List.lookup, ha]

/-- C6 counterexample: starting from a database satisfying the claimed
linearity invariant (one chain, one seed message), replicating the same
message twice yields two distinct messages (pks 2 and 3) of the same chain
sharing parent 1 — so the operations do not preserve "no two entries of the
chain share the same parent". -/
theorem chain_linearity_counterexample :
    noSharedParent exDB0 = true ∧ parentInSameChain exDB0 = true ∧
    noSharedParent exDB2 = false ∧
    (exSeedMsg.replicate exDB0).1.parent = some 1 ∧
    (exSeedMsg.replicate exDB1).1.parent = some 1 ∧
    (exSeedMsg.replicate exDB0).1.pk = 2 ∧
    (exSeedMsg.replicate exDB1).1.pk = 3 ∧
    (exSeedMsg.replicate exDB0).1 ∈ exDB2.messages ∧
    (exSeedMsg.replicate exDB1).1 ∈ exDB2.messages := by
  decide

theorem parentOkIn_append (pool l : List Message) (m : Message)
    (h : parentOkIn pool m = true) : parentOkIn (pool ++ l) m = true := by
  unfold parentOkIn at h ⊢
  cases hp : m.parent with
  | none => rfl
  | some ppk =>
    simp only [hp] at h ⊢
    cases hg : pool.find? (fun q => q.pk == ppk) with
    | none => simp [hg] at h
    | some p =>
      simp only [hg] at h
      simp [List.find?_append, hg, h]

theorem full_clean_preserves_links (x : Message) (db : DB) :
    (x.full_clean db).parent = x.parent ∧ (x.full_clean db).chain = x.chain := by
  unfold Message.full_clean
  cases hxp : x.parent with
  | none => exact ⟨hxp, rfl⟩
  | some ppk =>
    cases hg : getMessage db ppk with
    | none => simp [hg, hxp]
    | some p => simp [hg]

/-- C6 amended: parent links never leave the chain — an entry created by
`replicate` has its parent in the same chain, `replicate` preserves the
invariant that every stored message's parent (when present) belongs to the
same chain, and `full_clean` changes neither parent nor chain; but the
entries of a chain need not be linear: distinct entries may share a parent
(see the counterexample), so a chain's entries form a parent-linked tree
rather than a single linked list. -/
theorem replicate_preserves_tree_links (m : Message) (db : DB)
    (hm : getMessage db m.pk = some m)
    (hinv : parentInSameChain db = true) :
    parentInSameChain (m.replicate db).2 = true ∧
    (m.full_clean db).parent = m.parent ∧
    (m.full_clean db).chain = m.chain ∧
    (m.replicate db).1.parent = some m.pk ∧
    (m.replicate db).1.chain = m.chain := by
  have hparent : (m.replicate db).1.parent = some m.pk := by
    simp [Message.replicate, DB.saveMessage, Message.full_clean, hm]
  have hchain : (m.replicate db).1.chain = m.chain := by
    simp [Message.replicate, DB.saveMessage, Message.full_clean, hm]
  refine ⟨?_, (full_clean_preserves_links m db).1,
    (full_clean_preserves_links m db).2, hparent, hchain⟩
  have hmsgs : (m.replicate db).2.messages
      = db.messages ++ [(m.replicate db).1] := rfl
  unfold parentInSameChain at hinv ⊢
  rw [hmsgs, List.all_append]
  have hold : db.messages.all
      (parentOkIn (db.messages ++ [(m.replicate db).1])) = true := by
    rw [List.all_eq_true] at hinv ⊢
    intro x hx
    exact parentOkIn_append _ _ _ (hinv x hx)
  have hnew : parentOkIn (db.messages ++ [(m.replicate db).1])
      (m.replicate db).1 = true := by
    have hfind : db.messages.find? (fun q => q.pk == m.pk) = some m := hm
    unfold parentOkIn
    simp only [hparent]
    simp [List.find?_append, hfind, hchain]
  simp [hold, hnew]

/-- Witness for the amended C6: replicating the seed message of the
two-replication scenario keeps every parent link inside its chain. -/
theorem replicate_preserves_tree_links_witness :
    parentInSameChain (exSeedMsg.replicate exDB0).2 = true ∧
    (exSeedMsg.replicate exDB0).1.parent = some exSeedMsg.pk :=
  ⟨(replicate_preserves_tree_links exSeedMsg exDB0 rfl rfl).1,
   (replicate_preserves_tree_links exSeedMsg exDB0 rfl rfl).2.2.2.1⟩
